import Mathlib

set_option maxRecDepth 10000

attribute [local semireducible] Rat.add Rat.mul Rat.inv Rat.sub Rat.ofScientific

/-
Verification development for the EIT spreadsheet analyzer.

The embedding models the tabular ingestion and aggregation engine:
  * src/services/excelParser.ts   (parseExcelFile, after the external xlsx decode)
  * src/components/ExcelViewer.tsx (isNumeric, filteredData, summableColumns,
                                    totals, divisionResult)
  * App.tsx processData            (per-symbol summary)

Modelling conventions:
  * A cell is null, a string, or a number.  Numeric cells are modelled as
    integers (JavaScript renders integers in the safe range as plain decimal
    numerals, which is all the stringification the engine relies on).
  * JavaScript floating point values are modelled exactly: a JsNum is NaN,
    a signed infinity, or a rational.  Negative zero is identified with zero;
    no operation in the modelled code distinguishes them.
  * Out-of-range row access (row[j] with j beyond the row length) yields
    JavaScript undefined; it is modelled as (none : Option Cell), while
    (some c) is an in-range cell.
  * String(x) stringification, Number(x) conversion and parseFloat are
    modelled after their ECMAScript definitions on the reachable inputs
    (trimming, signs, Infinity, decimal/hex/octal/binary literals for Number,
    longest-prefix decimal literals for parseFloat).
-/

/-- JavaScript number values: NaN, signed infinities, or an exact finite
value (modelled as a rational). -/
inductive JsNum where
  | nan : JsNum
  | inf (neg : Bool) : JsNum
  | fin (q : ℚ) : JsNum
deriving DecidableEq

/-- JavaScript addition on modelled numbers. -/
def jsAdd : JsNum → JsNum → JsNum
  | .nan, _ => .nan
  | _, .nan => .nan
  | .inf s, .inf t => if s = t then .inf s else .nan
  | .inf s, .fin _ => .inf s
  | .fin _, .inf t => .inf t
  | .fin a, .fin b => .fin (a + b)

/-- JavaScript division on modelled numbers.  The divisor-zero branch is
modelled without signed zero; every use in the embedded code is guarded by
an explicit zero test on the divisor. -/
def jsDiv : JsNum → JsNum → JsNum
  | .nan, _ => .nan
  | _, .nan => .nan
  | .inf _, .inf _ => .nan
  | .inf s, .fin q => .inf (xor s (decide (q < 0)))
  | .fin _, .inf _ => .fin 0
  | .fin a, .fin b =>
    if b = 0 then (if a = 0 then .nan else .inf (decide (a < 0))) else .fin (a / b)

/-- JavaScript `x || 0` applied to a number: NaN and zero are falsy and
give 0, everything else passes through (zero maps to itself either way). -/
def orZero (v : JsNum) : JsNum := if v = .nan then .fin 0 else v

/-- JavaScript `x >= 0` on a modelled number (false for NaN). -/
def jsGe0 : JsNum → Bool
  | .nan => false
  | .inf s => !s
  | .fin q => decide (0 ≤ q)

/-- ECMAScript whitespace and line terminators recognised by trimming and
by `Number(string)` (tab, LF, VT, FF, CR, space, NBSP, LS, PS, BOM). -/
def isWS (c : Char) : Bool :=
  c.toNat = 9 || c.toNat = 10 || c.toNat = 11 || c.toNat = 12 || c.toNat = 13 ||
  c.toNat = 32 || c.toNat = 160 || c.toNat = 8232 || c.toNat = 8233 ||
  c.toNat = 65279

/-- Trim leading and trailing ECMAScript whitespace from a character list. -/
def trimWS (cs : List Char) : List Char :=
  ((cs.dropWhile isWS).reverse.dropWhile isWS).reverse

/-- Numeric value of a list of decimal digit characters. -/
def natOfDigits (ds : List Char) : ℕ :=
  ds.foldl (fun a c => 10 * a + (c.toNat - 48)) 0

/-- The exact rational value of a signed decimal-scientific quantity:
plus or minus m times ten to the e (built as one mkRat on machine-level
integers so that concrete values reduce cheaply). -/
def sciQ (neg : Bool) (m : ℕ) (e : ℤ) : ℚ :=
  if 0 ≤ e then mkRat ((if neg then -1 else 1) * Int.ofNat (m * 10 ^ e.toNat)) 1
  else mkRat ((if neg then -1 else 1) * Int.ofNat m) (10 ^ (-e).toNat)

/-- Exponent digits for a fully-consumed exponent part: all remaining
characters must be decimal digits and at least one must be present. -/
def expDigitsFull (neg : Bool) (d : List Char) : Option ℤ :=
  if d ≠ [] ∧ d.all Char.isDigit then
    some (if neg then -(natOfDigits d : ℤ) else (natOfDigits d : ℤ))
  else none

/-- Parse the tail of a decimal literal as an (optional) exponent part that
must consume the whole remainder; an empty tail means exponent 0. -/
def parseExpTail : List Char → Option ℤ
  | [] => some 0
  | c :: r =>
    if c = 'e' ∨ c = 'E' then
      match r with
      | '+' :: d => expDigitsFull false d
      | '-' :: d => expDigitsFull true d
      | d => expDigitsFull false d
    else none

/-- Parse a full (entirely consumed) unsigned decimal literal:
digits [. digits] [exponent] or . digits [exponent].  The result is the
pair of the concatenated mantissa digits value and the power-of-ten scale
(the written exponent minus the fraction length), so the literal's value
is mantissa times ten to the scale. -/
def parseDecFull (cs : List Char) : Option (ℕ × ℤ) :=
  let ip := cs.takeWhile Char.isDigit
  let r1 := cs.dropWhile Char.isDigit
  match r1 with
  | '.' :: r =>
    let fp := r.takeWhile Char.isDigit
    let r2 := r.dropWhile Char.isDigit
    if ip = [] ∧ fp = [] then none
    else (parseExpTail r2).map (fun e => (natOfDigits (ip ++ fp), e - (fp.length : ℤ)))
  | _ =>
    if ip = [] then none
    else (parseExpTail r1).map (fun e => (natOfDigits ip, e))

/-- The characters of the literal Infinity. -/
def infinityChars : List Char := ['I', 'n', 'f', 'i', 'n', 'i', 't', 'y']

/-- Unsigned part of a StrDecimalLiteral for `Number(string)`: Infinity or a
fully-consumed decimal literal; anything else is NaN. -/
def decOrInf (neg : Bool) (cs : List Char) : JsNum :=
  if cs = infinityChars then .inf neg
  else
    match parseDecFull cs with
    | some p => .fin (sciQ neg p.1 p.2)
    | none => .nan

/-- Hexadecimal digit test. -/
def isHexD (c : Char) : Bool :=
  c.isDigit || (decide ('a' ≤ c) && decide (c ≤ 'f')) ||
    (decide ('A' ≤ c) && decide (c ≤ 'F'))

/-- Octal digit test. -/
def isOctD (c : Char) : Bool := decide ('0' ≤ c) && decide (c ≤ '7')

/-- Binary digit test. -/
def isBinD (c : Char) : Bool := c = '0' || c = '1'

/-- Value of one digit character in bases up to 16. -/
def hexVal (c : Char) : ℕ :=
  if c.isDigit then c.toNat - 48
  else if decide ('a' ≤ c) && decide (c ≤ 'f') then c.toNat - 87
  else c.toNat - 55

/-- Value of a fully-consumed non-empty digit string in the given base. -/
def parseRadix (b : ℕ) (isD : Char → Bool) (ds : List Char) : Option ℚ :=
  if ds ≠ [] ∧ ds.all isD then
    some (mkRat (Int.ofNat (ds.foldl (fun a c => b * a + hexVal c) 0)) 1)
  else none

/-- ECMAScript `Number(string)`: trim whitespace; empty means 0; otherwise
the whole remainder must be a StrNumericLiteral (signed decimal or Infinity,
or an unsigned 0x/0o/0b literal); otherwise NaN. -/
def jsNumber (s : String) : JsNum :=
  match trimWS s.data with
  | [] => .fin 0
  | '+' :: r => decOrInf false r
  | '-' :: r => decOrInf true r
  | '0' :: c :: r =>
    if c = 'x' ∨ c = 'X' then
      match parseRadix 16 isHexD r with
      | some q => .fin q
      | none => .nan
    else if c = 'o' ∨ c = 'O' then
      match parseRadix 8 isOctD r with
      | some q => .fin q
      | none => .nan
    else if c = 'b' ∨ c = 'B' then
      match parseRadix 2 isBinD r with
      | some q => .fin q
      | none => .nan
    else decOrInf false ('0' :: c :: r)
  | t => decOrInf false t

/-- Greedy exponent for parseFloat: used only when at least one exponent
digit follows, otherwise the exponent marker is not part of the literal. -/
def parseExpPrefix : List Char → ℤ
  | [] => 0
  | c :: r =>
    if c = 'e' ∨ c = 'E' then
      match r with
      | '+' :: d => if d.takeWhile Char.isDigit = [] then 0 else (natOfDigits (d.takeWhile Char.isDigit) : ℤ)
      | '-' :: d => if d.takeWhile Char.isDigit = [] then 0 else -(natOfDigits (d.takeWhile Char.isDigit) : ℤ)
      | d => if d.takeWhile Char.isDigit = [] then 0 else (natOfDigits (d.takeWhile Char.isDigit) : ℤ)
    else 0

/-- ECMAScript `parseFloat(string)`: skip leading whitespace, then take the
longest prefix that is a signed decimal literal or Infinity; NaN when no
such prefix exists. -/
def parseFloatJs (s : String) : JsNum :=
  let t := s.data.dropWhile isWS
  let sgn : Bool × List Char :=
    match t with
    | '+' :: r => (false, r)
    | '-' :: r => (true, r)
    | _ => (false, t)
  let neg := sgn.1
  let r := sgn.2
  if infinityChars.isPrefixOf r then .inf neg
  else
    let ip := r.takeWhile Char.isDigit
    let r1 := r.dropWhile Char.isDigit
    let fr : List Char × List Char :=
      match r1 with
      | '.' :: rr => (rr.takeWhile Char.isDigit, rr.dropWhile Char.isDigit)
      | _ => ([], r1)
    let fp := fr.1
    let r2 := fr.2
    if ip = [] ∧ fp = [] then .nan
    else
      .fin (sciQ neg (natOfDigits (ip ++ fp)) (parseExpPrefix r2 - (fp.length : ℤ)))

/-- Remove every comma, as in `String(x).replace(/,/g, "")`. -/
def stripCommas (s : String) : String := ⟨s.data.filter (fun c => c ≠ ',')⟩

/-- A raw spreadsheet cell: null, a string, or a number. -/
inductive Cell where
  | null : Cell
  | str (s : String) : Cell
  | num (n : ℤ) : Cell
deriving DecidableEq

/-- Decimal rendering of an integer, as JavaScript String(n) renders safe
integers. -/
def intToString (n : ℤ) : String :=
  if n < 0 then ⟨'-' :: Nat.toDigits 10 (-n).toNat⟩ else ⟨Nat.toDigits 10 n.toNat⟩

/-- JavaScript String(cell). -/
def cellToString : Cell → String
  | .null => "null"
  | .str s => s
  | .num n => intToString n

/-- JavaScript String(x) where x is a cell access result: undefined
stringifies to "undefined". -/
def jsValToString : Option Cell → String
  | none => "undefined"
  | some c => cellToString c

/-- ASCII lower-casing, as toLowerCase acts on the modelled strings. -/
def lowerStr (s : String) : String := ⟨s.data.map Char.toLower⟩

/-- Substring test, as JavaScript String.prototype.includes. -/
def containsSub (pat : List Char) : List Char → Bool
  | [] => pat.isEmpty
  | c :: r => pat.isPrefixOf (c :: r) || containsSub pat r

/-- isNumeric from ExcelViewer.tsx applied to a raw access result:
false for null or the empty string, otherwise test
`!isNaN(Number(String(val).replace(/,/g, "")))`. -/
def isNumericJs (v : Option Cell) : Bool :=
  if v = some Cell.null ∨ v = some (Cell.str "") then false
  else if jsNumber (stripCommas (jsValToString v)) = .nan then false else true

/-- isNumeric from ExcelViewer.tsx on a proper cell value. -/
def isNumeric (c : Cell) : Bool := isNumericJs (some c)

/-- One sheet row matches the search term when some non-null cell's
lower-cased string form contains the lower-cased term
(ExcelViewer.tsx, filteredData). -/
def rowMatches (term : String) (row : List Cell) : Bool :=
  row.any (fun c =>
    decide (c ≠ Cell.null) &&
      containsSub (lowerStr term).data (lowerStr (cellToString c)).data)

/-- Per-sheet filtering (ExcelViewer.tsx, filteredData): an empty sheet
stays empty, otherwise the header row is kept and data rows are filtered. -/
def filterSheet (term : String) : List (List Cell) → List (List Cell)
  | [] => []
  | hdr :: rows => hdr :: rows.filter (rowMatches term)

/-- The search filter over all sheets (ExcelViewer.tsx, filteredData):
an empty term short-circuits to the raw data unchanged. -/
def filterData (term : String) (raw : List (String × List (List Cell))) :
    List (String × List (List Cell)) :=
  if term = "" then raw else raw.map (fun p => (p.1, filterSheet term p.2))

/-- One sampled cell keeps a column summable (ExcelViewer.tsx,
summableColumns): the column check fails only on a value that is neither
null nor the empty string nor numeric.  An out-of-range access (undefined)
is not null, not the empty string and not numeric, so it fails the check. -/
def keepCell (v : Option Cell) : Bool :=
  decide (v = some Cell.null) || decide (v = some (Cell.str "")) || isNumericJs v

/-- summableColumns from ExcelViewer.tsx: with no data rows no column is
summable; otherwise a column index is summable when every cell of that
column in the first min(rowCount, 20) data rows passes the check.  The
source's checks[j] && short-circuit is a pure optimisation of this. -/
def summableColumns (headers : List Cell) (dataRows : List (List Cell)) : List ℕ :=
  if dataRows.isEmpty then []
  else
    (List.range headers.length).filter (fun j =>
      (List.range (min dataRows.length 20)).all (fun i =>
        keepCell ((dataRows.getD i [])[j]?)))

/-- `parseFloat(String(x).replace(/,/g, "")) || 0`, the loose numeric
coercion shared by the viewer totals and the transaction importer. -/
def parseNumLoose (v : Option Cell) : JsNum :=
  orZero (parseFloatJs (stripCommas (jsValToString v)))

/-- Column total from ExcelViewer.tsx (totals): every filtered data row
contributes `parseFloat(String(cell).replace(/,/g, "")) || 0`. -/
def columnTotal (dataRows : List (List Cell)) (c : ℕ) : JsNum :=
  dataRows.foldl (fun acc r => jsAdd acc (parseNumLoose r[c]?)) (.fin 0)

/-- totals from ExcelViewer.tsx: null when no column is selected or there
are no data rows, otherwise the per-column totals in selection order. -/
def totalsMap (dataRows : List (List Cell)) (sel : List ℕ) :
    Option (List (ℕ × JsNum)) :=
  if sel.length = 0 ∨ dataRows.length = 0 then none
  else some (sel.map (fun c => (c, columnTotal dataRows c)))

/-- The division row result: the sentinel string result or a number. -/
inductive RatioRes where
  | na : RatioRes
  | val (v : JsNum) : RatioRes
deriving DecidableEq

/-- Map lookup in the computed totals. -/
def lookupTotal (tm : List (ℕ × JsNum)) (c : ℕ) : Option JsNum :=
  (tm.find? (fun p => decide (p.1 = c))).map (fun p => p.2)

/-- divisionResult from ExcelViewer.tsx: null unless exactly two columns
are selected and totals exist; the first-selected total is the numerator;
a zero denominator total yields the sentinel, otherwise the quotient. -/
def divisionResult (dataRows : List (List Cell)) (sel : List ℕ) :
    Option (JsNum × JsNum × RatioRes) :=
  match sel, totalsMap dataRows sel with
  | [c1, c2], some tm =>
    match lookupTotal tm c1, lookupTotal tm c2 with
    | some t1, some t2 =>
      if t2 = .fin 0 then some (t1, t2, .na) else some (t1, t2, .val (jsDiv t1 t2))
    | _, _ => none
  | _, _ => none

/-- Modelled from the spec (section 4.1): toNumber, the strict coercion
used by the claimed aggregate — Number of the comma-stripped string form,
0 when that is not finite. -/
def specToNumber (v : Option Cell) : ℚ :=
  match jsNumber (stripCommas (jsValToString v)) with
  | .fin q => q
  | _ => 0

/-- Modelled from the spec (section 4.6): the claimed column sum — a
running total of toNumber over the numeric cells only. -/
def specSum (dataRows : List (List Cell)) (c : ℕ) : ℚ :=
  dataRows.foldl (fun a r => if isNumericJs r[c]? then a + specToNumber r[c]? else a) 0

/-- Modelled from the spec (section 4.6): the claimed numeric-cell count. -/
def specCount (dataRows : List (List Cell)) (c : ℕ) : ℕ :=
  dataRows.foldl (fun a r => if isNumericJs r[c]? then a + 1 else a) 0

/-- Modelled from the spec (section 4.6): the claimed column average. -/
def specAverage (dataRows : List (List Cell)) (c : ℕ) : ℚ :=
  if 0 < specCount dataRows c then specSum dataRows c / (specCount dataRows c : ℚ) else 0

/-- Modelled from the spec (section 4.5): the claimed summable-column
classification, under which a cell at an index at or beyond the row length
is treated as absent. -/
def specSummable (headers : List Cell) (dataRows : List (List Cell)) (j : ℕ) : Prop :=
  j < headers.length ∧
    ∀ i ∈ List.range (min dataRows.length 20),
      (dataRows.getD i [])[j]? = none ∨ (dataRows.getD i [])[j]? = some Cell.null ∨
        (dataRows.getD i [])[j]? = some (Cell.str "") ∨
        isNumericJs ((dataRows.getD i [])[j]?) = true

/-- The claimed classification is decidable, so that concrete instances
evaluate. -/
instance (headers : List Cell) (dataRows : List (List Cell)) (j : ℕ) :
    Decidable (specSummable headers dataRows j) := by
  unfold specSummable
  exact inferInstance

/-- Modelled from the spec (section 4.1): the claimed characterisation of
isNumericCell — the comma-stripped string form parses as a finite number. -/
def specNumericCell (c : Cell) : Bool :=
  if c = Cell.null ∨ c = Cell.str "" then false
  else
    match jsNumber (stripCommas (cellToString c)) with
    | .fin _ => true
    | _ => false

/-- The six transaction fields of excelParser.ts. -/
inductive TxField where
  | symbol | acquirerDisposer | numSecurities | value | transactionType | date
deriving DecidableEq

/-- EXCEL_HEADER_MAPPING from excelParser.ts. -/
def headerMapping (s : String) : Option TxField :=
  if s = "SYMBOL" then some .symbol
  else if s = "NAME OF THE ACQUIRER/DISPOSER" then some .acquirerDisposer
  else if s = "NO. OF SECURITIES (ACQUIRED/DISCLOSED)" then some .numSecurities
  else if s = "VALUE OF SECURITY (ACQUIRED/DISCLOSED)" then some .value
  else if s = "ACQUISITION/DISPOSAL TRANSACTION TYPE" then some .transactionType
  else if s = "DATE OF ALLOTMENT/ACQUISITION FROM" then some .date
  else none

/-- sanitizeKey from excelParser.ts: trim then upper-case (the headers in
scope are ASCII, where toUpperCase is per-character). -/
def sanitizeKey (s : String) : String := ⟨(trimWS s.data).map Char.toUpper⟩

/-- The partial transaction object built per data row.  String-like fields
hold the raw assigned access result (undefined possible); numeric fields
hold the coerced number.  A field is none when never assigned. -/
structure PartialTx where
  symbol : Option (Option Cell)
  acquirerDisposer : Option (Option Cell)
  numSecurities : Option JsNum
  value : Option JsNum
  transactionType : Option (Option Cell)
  date : Option (Option Cell)
deriving DecidableEq

/-- The row accumulator starts with no field assigned. -/
def emptyTx : PartialTx := ⟨none, none, none, none, none, none⟩

/-- Assign one mapped cell into the partial transaction: value and
numSecurities go through the loose numeric coercion, other fields keep the
raw value (excelParser.ts row loop). -/
def setField (t : PartialTx) (f : TxField) (v : Option Cell) : PartialTx :=
  match f with
  | .symbol => { t with symbol := some v }
  | .acquirerDisposer => { t with acquirerDisposer := some v }
  | .numSecurities => { t with numSecurities := some (parseNumLoose v) }
  | .value => { t with value := some (parseNumLoose v) }
  | .transactionType => { t with transactionType := some v }
  | .date => { t with date := some v }

/-- Build the partial transaction of one data row: for every header index
whose canonical header is mapped, assign the cell unless the access result
is strictly null (an out-of-range undefined is not null and is assigned). -/
def buildTx (headers : List String) (row : List Cell) : PartialTx :=
  headers.enum.foldl
    (fun t p =>
      match headerMapping p.2 with
      | none => t
      | some f =>
        match row[p.1]? with
        | some Cell.null => t
        | v => setField t f v)
    emptyTx

/-- isValidRow: at least one field was assigned. -/
def rowValid (t : PartialTx) : Bool :=
  t.symbol.isSome || t.acquirerDisposer.isSome || t.numSecurities.isSome ||
    t.value.isSome || t.transactionType.isSome || t.date.isSome

/-- JavaScript truthiness of a possibly-missing field value
(for `!!t.symbol`): missing and undefined are falsy, a string is truthy
when non-empty, a number when non-zero. -/
def jsTruthy (v : Option (Option Cell)) : Bool :=
  match v with
  | some (some (Cell.str s)) => decide (s ≠ "")
  | some (some (Cell.num n)) => decide (n ≠ 0)
  | _ => false

/-- JavaScript `t.value >= 0`: false when the field is missing (undefined
comparisons are false), otherwise the numeric comparison. -/
def valueNonneg (v : Option JsNum) : Bool :=
  match v with
  | none => false
  | some x => jsGe0 x

/-- The record-acceptance filter of excelParser.ts:
`t !== null && !!t.symbol && t.value >= 0`. -/
def keepTx (t : PartialTx) : Bool :=
  rowValid t && jsTruthy t.symbol && valueNonneg t.value

/-- The message of the rejection produced by the catch-all handler in
parseExcelFile (the thrown schema message is swallowed by the catch). -/
def parseErrorMsg : String :=
  "Failed to parse the Excel file. Please ensure it is a valid .xlsx or .csv file with the correct format."

/-- A decoded workbook: named sheets, each a matrix of cells, in sheet
order.  This is exactly the rawData object parseExcelFile builds. -/
abbrev Workbook := List (String × List (List Cell))

/-- Decidable equality for parser outcomes. -/
instance {e a : Type} [DecidableEq e] [DecidableEq a] : DecidableEq (Except e a) := fun x y =>
  match x, y with
  | .ok u, .ok v =>
    if h : u = v then isTrue (by rw [h]) else isFalse (by simp [h])
  | .error u, .error v =>
    if h : u = v then isTrue (by rw [h]) else isFalse (by simp [h])
  | .ok _, .error _ => isFalse (by simp)
  | .error _, .ok _ => isFalse (by simp)

/-- parseExcelFile from excelParser.ts, after the external byte decode:
no sheet resolves with empty everything; a first sheet with fewer than two
rows resolves with no transactions but full raw data; fewer than three
mapped canonical headers rejects the whole promise; otherwise data rows
are built into partial transactions, rows with no assigned field are
dropped (map-to-null), and the acceptance filter is applied. -/
def parseWorkbook (wb : Workbook) : Except String (List PartialTx × Workbook) :=
  match wb with
  | [] => .ok ([], [])
  | (_, m) :: _ =>
    if m.length < 2 then .ok ([], wb)
    else
      let headers := (m.getD 0 []).map (fun c => sanitizeKey (cellToString c))
      let mapped := (headers.map headerMapping).filterMap id
      if mapped.length < 3 then .error parseErrorMsg
      else .ok (((m.drop 1).map (buildTx headers)).filter keepTx, wb)

/-- Number of known fields found in a canonicalised header row
(`mappedHeaders.length` in excelParser.ts). -/
def mappedCount (headers : List String) : ℕ :=
  ((headers.map headerMapping).filterMap id).length

/-- The canonicalised header row of a sheet matrix. -/
def headersOf (m : List (List Cell)) : List String :=
  (m.getD 0 []).map (fun c => sanitizeKey (cellToString c))

/-- Map lookup by symbol (App.tsx processData, summaryMap.get). -/
def mapGet (acc : List (String × ℚ)) (s : String) : Option ℚ :=
  (acc.find? (fun p => decide (p.1 = s))).map (fun p => p.2)

/-- Map.set semantics on the association list: update in place when the
key exists, append otherwise (JavaScript Map preserves insertion order). -/
def mapSet : List (String × ℚ) → String → ℚ → List (String × ℚ)
  | [], s, v => [(s, v)]
  | p :: r, s, v => if p.1 = s then (p.1, v) :: r else p :: mapSet r s v

/-- One reduce step of processData:
`acc.set(t.symbol, (acc.get(t.symbol) || 0) + t.value)`.  processData
consumes records through the declared Transaction interface
(symbol a string, value a number); values are modelled as rationals. -/
def summaryStep (acc : List (String × ℚ)) (t : String × ℚ) : List (String × ℚ) :=
  mapSet acc t.1 ((mapGet acc t.1).getD 0 + t.2)

/-- The per-symbol totals map of processData, in first-encounter order. -/
def summaryMap (ts : List (String × ℚ)) : List (String × ℚ) :=
  ts.foldl summaryStep []

/-- Stable descending insertion of one entry: the inserted element goes
after every already-placed entry with an equal or larger total and
before the first strictly smaller one. -/
def insertDesc (x : String × ℚ) : List (String × ℚ) → List (String × ℚ)
  | [] => [x]
  | y :: r => if x.2 ≤ y.2 then y :: insertDesc x r else x :: y :: r

/-- Stable sort by total value descending, inserting entries left to
right (later entries land after equal-valued earlier ones, exactly the
ECMAScript stable-sort contract for the comparator `b.tv - a.tv`). -/
def sortDesc (l : List (String × ℚ)) : List (String × ℚ) :=
  l.foldl (fun acc x => insertDesc x acc) []

/-- processData's sorted summary: the totals map entries sorted by total
value descending. -/
def computeSummary (ts : List (String × ℚ)) : List (String × ℚ) :=
  sortDesc (summaryMap ts)

/-- Modelled from the spec (section 3, SummaryEntry): the total value of
one symbol is the sum of the values of the records bearing it. -/
def sumValues (ts : List (String × ℚ)) (s : String) : ℚ :=
  ((ts.filter (fun p => decide (p.1 = s))).map (fun p => p.2)).sum

lemma filterSheet_idem (t : String) (s : List (List Cell)) :
    filterSheet t (filterSheet t s) = filterSheet t s := by
  cases s with
  | nil => rfl
  | cons hdr rows =>
    show hdr :: (rows.filter (rowMatches t)).filter (rowMatches t) =
      hdr :: rows.filter (rowMatches t)
    congr 1
    exact List.filter_eq_self.mpr (fun a ha => List.of_mem_filter ha)

lemma filterSheet_head (t : String) (s : List (List Cell)) :
    (filterSheet t s).head? = s.head? := by
  cases s <;> rfl

/-- C7: applying the search filter twice with one term equals applying it
once; filtering with the empty term is the identity; and filtering never
changes any sheet's header row. -/
theorem c7_filter_idempotent_and_identity :
    ∀ (raw : List (String × List (List Cell))) (term : String),
      filterData term (filterData term raw) = filterData term raw ∧
      filterData "" raw = raw ∧
      (filterData term raw).map (fun p => (p.1, p.2.head?)) =
        raw.map (fun p => (p.1, p.2.head?)) := by
  intro raw term
  refine ⟨?_, by simp [filterData], ?_⟩
  · by_cases h : term = ""
    · subst h; simp [filterData]
    · simp only [filterData, if_neg h, List.map_map]
      exact congrArg (fun f => List.map f raw)
        (funext fun p => by simp [Function.comp, filterSheet_idem])
  · by_cases h : term = ""
    · subst h; simp [filterData]
    · simp only [filterData, if_neg h, List.map_map]
      exact congrArg (fun f => List.map f raw)
        (funext fun p => by simp [Function.comp, filterSheet_head])

/-- C4 counterexample: the string Infinity is classified numeric by the
code (its Number conversion is not NaN) although it does not parse as a
finite number, refuting the claimed characterisation. -/
theorem c4_counterexample :
    isNumeric (Cell.str "Infinity") = true ∧
      specNumericCell (Cell.str "Infinity") = false := by
  exact ⟨by decide, by decide⟩

/-- C4 amended: isNumeric is true iff the comma-stripped string form
parses as a finite number or as an infinity (only NaN is rejected); null
and the empty string are non-numeric, and the claimed example vectors all
hold. -/
theorem c4_numeric_amended :
    (∀ v : Cell,
        isNumeric v = true ↔
          (specNumericCell v = true ∨
            (v ≠ Cell.null ∧ v ≠ Cell.str "" ∧
              ∃ s, jsNumber (stripCommas (cellToString v)) = .inf s))) ∧
      isNumeric (Cell.str "0") = true ∧ isNumeric (Cell.str "-5.2") = true ∧
      isNumeric (Cell.str "1,234.5") = true ∧ isNumeric (Cell.str "") = false ∧
      isNumeric Cell.null = false ∧ isNumeric (Cell.str "N/A") = false ∧
      isNumeric (Cell.str "12a") = false := by
  refine ⟨?_, by decide, by decide, by decide, by decide, by decide, by decide, by decide⟩
  intro v
  unfold isNumeric isNumericJs specNumericCell
  by_cases h0 : v = Cell.null ∨ v = Cell.str ""
  · have h1 : (some v = some Cell.null ∨ some v = some (Cell.str "")) := by
      rcases h0 with h | h <;> simp [h]
    rw [if_pos h1, if_pos h0]
    rcases h0 with h | h <;> simp [h]
  · have h1 : ¬(some v = some Cell.null ∨ some v = some (Cell.str "")) := by
      simpa using h0
    push_neg at h0
    rw [if_neg h1, if_neg (by simpa using h0 : ¬(v = Cell.null ∨ v = Cell.str ""))]
    show (if jsNumber (stripCommas (cellToString v)) = .nan then false else true) = true ↔ _
    cases hj : jsNumber (stripCommas (cellToString v)) with
    | nan => simp [hj]
    | inf s => simp [hj, h0.1, h0.2]
    | fin q => simp [hj]

/-- C2 counterexample: in a selected column containing the single cell
12a, the code's total is 12 (parseFloat takes the numeric prefix) while
the claimed aggregate skips the non-numeric cell entirely, giving sum 0,
count 0 and average 0 — and the code computes no count or average at all. -/
theorem c2_counterexample :
    columnTotal [[Cell.str "12a"]] 0 = .fin 12 ∧
      specSum [[Cell.str "12a"]] 0 = 0 ∧ specCount [[Cell.str "12a"]] 0 = 0 ∧
      specAverage [[Cell.str "12a"]] 0 = 0 := by
  exact ⟨by decide, by decide, by decide, by decide⟩

/-- C2 amended: the aggregate for each selected column is a single sum,
the fold of `parseFloat(comma-stripped string form) || 0` over every
filtered row; null, empty and absent cells contribute zero, the claimed
example rows 10, 20, x, null still total 30, and a non-numeric cell with
a numeric prefix contributes that prefix.  No count or average exists. -/
theorem c2_totals_amended :
    (∀ (dataRows : List (List Cell)) (sel : List ℕ),
        sel ≠ [] → dataRows ≠ [] →
        totalsMap dataRows sel =
          some (sel.map (fun c => (c, columnTotal dataRows c)))) ∧
      (∀ (r : List Cell) (dataRows : List (List Cell)) (c : ℕ),
        (r[c]? = none ∨ r[c]? = some Cell.null ∨ r[c]? = some (Cell.str "")) →
        columnTotal (r :: dataRows) c = columnTotal dataRows c) ∧
      columnTotal [[Cell.num 10], [Cell.num 20], [Cell.str "x"], [Cell.null]] 0 =
        .fin 30 ∧
      columnTotal [[Cell.str "3.5x"]] 0 = .fin (3.5 : ℚ) := by
  refine ⟨?_, ?_, by decide, by decide⟩
  · intro rows sel hs hr
    unfold totalsMap
    rw [if_neg]
    simp [List.length_eq_zero, hs, hr]
  · intro r rows c h
    have hz : parseNumLoose r[c]? = .fin 0 := by
      rcases h with h | h | h <;> rw [h] <;> decide
    unfold columnTotal
    rw [List.foldl_cons, hz]
    have : jsAdd (.fin 0) (.fin 0) = .fin 0 := by norm_num [jsAdd]
    rw [this]

/-- C2 amended witness at concrete inputs. -/
theorem c2_totals_amended_witness :
    totalsMap [[Cell.num 7]] [0] = some [(0, columnTotal [[Cell.num 7]] 0)] ∧
      columnTotal [[Cell.null], [Cell.num 7]] 0 = columnTotal [[Cell.num 7]] 0 := by
  refine ⟨?_, c2_totals_amended.2.1 [Cell.null] [[Cell.num 7]] 0 (by decide)⟩
  have h := c2_totals_amended.1 [[Cell.num 7]] [0] (by decide) (by decide)
  simpa using h

/-- C3 counterexample: with two headers and one data row of length one,
the out-of-range cell of column 1 disqualifies it in the code (undefined
is neither null nor empty nor numeric), although the claimed
classification treats it as absent and calls the column summable. -/
theorem c3_counterexample :
    specSummable [Cell.str "H1", Cell.str "H2"] [[Cell.num 5]] 1 ∧
      1 ∉ summableColumns [Cell.str "H1", Cell.str "H2"] [[Cell.num 5]] ∧
      summableColumns [Cell.str "H1", Cell.str "H2"] [[Cell.num 5]] = [0] := by
  exact ⟨by decide, by decide, by decide⟩

/-- C3 amended: when data rows exist, a column index is summable iff it
is below the header length and every sampled cell of the first
min(rowCount, 20) rows passes the check, where an access beyond the row
length disqualifies the column (it stringifies like undefined); a column
numeric in rows 0 to 19 with text at row 20 is still summable. -/
theorem c3_summable_amended :
    (∀ (headers : List Cell) (dataRows : List (List Cell)) (j : ℕ),
        dataRows ≠ [] →
        (j ∈ summableColumns headers dataRows ↔
          j < headers.length ∧
            ∀ i < min dataRows.length 20, keepCell ((dataRows.getD i [])[j]?) = true)) ∧
      0 ∈ summableColumns [Cell.str "H"]
          (List.replicate 20 [Cell.num 1] ++ [[Cell.str "x"]]) := by
  refine ⟨?_, by decide⟩
  intro headers rows j hr
  unfold summableColumns
  rw [if_neg (by simpa using hr)]
  simp [List.mem_filter, List.all_eq_true]

/-- C3 amended witness at a concrete input. -/
theorem c3_summable_amended_witness :
    0 ∈ summableColumns [Cell.str "H1"] [[Cell.num 2]] :=
  (c3_summable_amended.1 [Cell.str "H1"] [[Cell.num 2]] 0 (by decide)).mpr (by decide)

/-- C9: a first sheet with exactly one row (header only) yields no
transactions and no error, whatever its headers; a workbook with no
sheets yields empty transactions and empty raw data without error. -/
theorem c9_empty_inputs_ok :
    (∀ (wb : Workbook) (nm : String) (m : List (List Cell)),
        wb.head? = some (nm, m) → m.length = 1 →
        parseWorkbook wb = .ok ([], wb)) ∧
      parseWorkbook ([] : Workbook) = .ok ([], []) := by
  refine ⟨?_, rfl⟩
  intro wb nm m hh hl
  rcases wb with _ | ⟨⟨nm2, m2⟩, rest⟩
  · simp at hh
  · simp only [List.head?_cons, Option.some.injEq, Prod.mk.injEq] at hh
    obtain ⟨rfl, rfl⟩ := hh
    show (if m2.length < 2 then Except.ok ([], (nm2, m2) :: rest) else _) = _
    rw [if_pos (by omega)]

/-- C9 witness at a concrete header-only workbook whose header matches no
known field. -/
theorem c9_empty_inputs_ok_witness :
    parseWorkbook [("S", [[Cell.str "A"]])] = .ok ([], [("S", [[Cell.str "A"]])]) :=
  c9_empty_inputs_ok.1 [("S", [[Cell.str "A"]])] "S" [[Cell.str "A"]] rfl rfl

/-- C1 counterexample: a workbook whose first sheet has a data row but a
header row matching no known field makes parseExcelFile reject the whole
load with the generic parse error — the raw sheet data is not returned
to the caller, contradicting the claimed partial success. -/
theorem c1_counterexample :
    parseWorkbook [("S", [[Cell.str "A", Cell.str "B"], [Cell.str "x", Cell.str "y"]])] =
        .error parseErrorMsg ∧
      mappedCount (headersOf [[Cell.str "A", Cell.str "B"], [Cell.str "x", Cell.str "y"]]) < 3 ∧
      2 ≤ ([[Cell.str "A", Cell.str "B"], [Cell.str "x", Cell.str "y"]] : List (List Cell)).length := by
  exact ⟨by decide, by decide, by decide⟩

/-- C1 amended: when the first sheet has at least two rows and its header
row maps to fewer than three known fields, the whole load is rejected
with the generic parse error and no raw data reaches the caller; raw data
with empty transactions is returned only when the first sheet has fewer
than two rows. -/
theorem c1_schema_rejects_amended :
    ∀ (wb : Workbook) (nm : String) (m : List (List Cell)),
      wb.head? = some (nm, m) → 2 ≤ m.length → mappedCount (headersOf m) < 3 →
      parseWorkbook wb = .error parseErrorMsg := by
  intro wb nm m hh h2 h3
  rcases wb with _ | ⟨⟨nm2, m2⟩, rest⟩
  · simp at hh
  · simp only [List.head?_cons, Option.some.injEq, Prod.mk.injEq] at hh
    obtain ⟨rfl, rfl⟩ := hh
    show (if m2.length < 2 then Except.ok ([], (nm2, m2) :: rest)
      else if mappedCount (headersOf m2) < 3 then Except.error parseErrorMsg
      else _) = _
    rw [if_neg (by omega), if_pos h3]

/-- C1 amended witness at a concrete schema-violating workbook. -/
theorem c1_schema_rejects_amended_witness :
    parseWorkbook [("T", [[Cell.str "P"], [Cell.str "q"]])] = .error parseErrorMsg :=
  c1_schema_rejects_amended [("T", [[Cell.str "P"], [Cell.str "q"]])] "T"
    [[Cell.str "P"], [Cell.str "q"]] rfl (by decide) (by decide)

/-- C6: evaluating extraction on the claimed workbook (header row SYMBOL,
VALUE OF SECURITY, TRANSACTION TYPE with data row TCS, 1,000, Buy) yields
exactly one record with symbol TCS, value 1000 and type Buy, but its
numSecurities field is left unassigned (undefined at runtime) rather than
set to 0, contradicting the declared Transaction interface that every
consumer relies on. -/
theorem c6_extraction_record :
    parseWorkbook
        [("Sheet1",
          [[Cell.str "SYMBOL", Cell.str "VALUE OF SECURITY (ACQUIRED/DISCLOSED)",
            Cell.str "ACQUISITION/DISPOSAL TRANSACTION TYPE"],
           [Cell.str "TCS", Cell.str "1,000", Cell.str "Buy"]])] =
      .ok ([{ symbol := some (some (Cell.str "TCS")), acquirerDisposer := none,
              numSecurities := none, value := some (.fin 1000),
              transactionType := some (some (Cell.str "Buy")), date := none }],
        [("Sheet1",
          [[Cell.str "SYMBOL", Cell.str "VALUE OF SECURITY (ACQUIRED/DISCLOSED)",
            Cell.str "ACQUISITION/DISPOSAL TRANSACTION TYPE"],
           [Cell.str "TCS", Cell.str "1,000", Cell.str "Buy"]])]) := by
  decide

lemma totalsMap_some (dataRows : List (List Cell)) (sel : List ℕ)
    (hs : sel ≠ []) (hr : dataRows ≠ []) :
    totalsMap dataRows sel = some (sel.map (fun c => (c, columnTotal dataRows c))) := by
  unfold totalsMap
  rw [if_neg]
  simp [List.length_eq_zero, hs, hr]

lemma divisionResult_pair (dataRows : List (List Cell)) (c1 c2 : ℕ)
    (hr : dataRows ≠ []) :
    divisionResult dataRows [c1, c2] =
      some (columnTotal dataRows c1, columnTotal dataRows c2,
        if columnTotal dataRows c2 = .fin 0 then RatioRes.na
        else RatioRes.val (jsDiv (columnTotal dataRows c1) (columnTotal dataRows c2))) := by
  have ht := totalsMap_some dataRows [c1, c2] (by simp) hr
  unfold divisionResult
  rw [ht]
  by_cases hc : c1 = c2
  · subst hc
    simp only [lookupTotal, List.find?, List.map_cons, List.map_nil, decide_eq_true_eq]
    simp [apply_ite]
  · simp only [lookupTotal, List.find?, List.map_cons, List.map_nil]
    simp [hc, apply_ite]

/-- C5 counterexample: with two selected column indices but an empty
filtered row set, no ratio result exists (totals is null), refuting
existence for every two-column selection. -/
theorem c5_counterexample :
    divisionResult [] [0, 1] = none ∧ ([0, 1] : List ℕ).length = 2 := by
  exact ⟨by decide, by decide⟩

/-- C5 amended: a ratio result exists iff exactly two columns are
selected and the filtered view has a data row; when it exists the
numerator total is the earlier-selected column's sum, the denominator the
later-selected one's, the sentinel appears exactly when the denominator
total is zero, and otherwise the result is the exact quotient. -/
theorem c5_ratio_amended :
    (∀ (dataRows : List (List Cell)) (sel : List ℕ),
        (divisionResult dataRows sel).isSome = true ↔
          (sel.length = 2 ∧ dataRows ≠ [])) ∧
      ∀ (dataRows : List (List Cell)) (c1 c2 : ℕ), dataRows ≠ [] →
        divisionResult dataRows [c1, c2] =
          some (columnTotal dataRows c1, columnTotal dataRows c2,
            if columnTotal dataRows c2 = .fin 0 then RatioRes.na
            else RatioRes.val (jsDiv (columnTotal dataRows c1) (columnTotal dataRows c2))) := by
  refine ⟨?_, fun rows c1 c2 hr => divisionResult_pair rows c1 c2 hr⟩
  intro rows sel
  rcases sel with _ | ⟨a, _ | ⟨b, _ | ⟨c, t⟩⟩⟩
  · simp [divisionResult, totalsMap]
  · simp [divisionResult]
  · rcases Classical.em (rows = []) with rfl | hr
    · have ht : totalsMap ([] : List (List Cell)) [a, b] = none := by
        unfold totalsMap
        exact if_pos (Or.inr rfl)
      unfold divisionResult
      rw [ht]
      simp
    · rw [divisionResult_pair rows a b hr]
      simp [hr]
  · have : divisionResult rows (a :: b :: c :: t) = none := by
      unfold divisionResult
      rcases ht : totalsMap rows (a :: b :: c :: t) with _ | tm <;> rfl
    simp [this]

/-- C5 amended witness at a concrete two-column selection. -/
theorem c5_ratio_amended_witness :
    divisionResult [[Cell.num 4, Cell.num 2]] [0, 1] =
      some (.fin 4, .fin 2, RatioRes.val (.fin 2)) :=
  (c5_ratio_amended.2 [[Cell.num 4, Cell.num 2]] 0 1 (by decide)).trans (by decide)

lemma setField_value_of_ne (t : PartialTx) (f : TxField) (v : Option Cell)
    (hf : f ≠ TxField.value) : (setField t f v).value = t.value := by
  cases f <;> first | rfl | exact absurd rfl hf

lemma buildTx_value_none (headers : List String) (row : List Cell)
    (hv : ∀ h ∈ headers, headerMapping h ≠ some TxField.value) :
    (buildTx headers row).value = none := by
  unfold buildTx
  have key : ∀ (l : List (ℕ × String)) (t : PartialTx),
      (∀ p ∈ l, headerMapping p.2 ≠ some TxField.value) → t.value = none →
      (l.foldl
        (fun t p =>
          match headerMapping p.2 with
          | none => t
          | some f =>
            match row[p.1]? with
            | some Cell.null => t
            | v => setField t f v) t).value = none := by
    intro l
    induction l with
    | nil => intro t _ ht; exact ht
    | cons p r ih =>
      intro t hl ht
      rw [List.foldl_cons]
      refine ih _ (fun q hq => hl q (List.mem_cons_of_mem _ hq)) ?_
      have hp := hl p (List.mem_cons_self _ _)
      cases hm : headerMapping p.2 with
      | none => simpa [hm] using ht
      | some f =>
        have hf : f ≠ TxField.value := by
          intro h
          exact hp (by rw [hm, h])
        cases hv : row[p.1]? with
        | none => simpa [hm, hv, setField_value_of_ne t f _ hf] using ht
        | some c =>
          cases c <;>
            simp [hm, hv, setField_value_of_ne t f _ hf, ht, setField_value_of_ne]
  refine key _ emptyTx ?_ rfl
  intro p hp
  have : p.2 ∈ headers := by
    have := List.mem_map_of_mem Prod.snd hp
    rwa [List.enum_map_snd] at this
  exact hv _ this

/-- C10: when the first sheet's header row maps at least three known
fields but none of them is the value field, extraction returns an empty
record list for every input: no row can pass the acceptance filter since
its value field is never populated and an absent value fails `value >= 0`. -/
theorem c10_missing_value_empty :
    ∀ (wb : Workbook) (nm : String) (m : List (List Cell)),
      wb.head? = some (nm, m) →
      3 ≤ mappedCount (headersOf m) →
      (∀ h ∈ headersOf m, headerMapping h ≠ some TxField.value) →
      parseWorkbook wb = .ok ([], wb) := by
  intro wb nm m hh h3 hv
  rcases wb with _ | ⟨⟨nm2, m2⟩, rest⟩
  · simp at hh
  · simp only [List.head?_cons, Option.some.injEq, Prod.mk.injEq] at hh
    obtain ⟨rfl, rfl⟩ := hh
    by_cases hlen : m2.length < 2
    · show (if m2.length < 2 then Except.ok ([], (nm2, m2) :: rest) else _) = _
      rw [if_pos hlen]
    · show (if m2.length < 2 then Except.ok ([], (nm2, m2) :: rest)
        else if mappedCount (headersOf m2) < 3 then Except.error parseErrorMsg
        else Except.ok
          (((m2.drop 1).map (buildTx (headersOf m2))).filter keepTx, (nm2, m2) :: rest)) = _
      rw [if_neg hlen, if_neg (by omega)]
      have hempty : ((m2.drop 1).map (buildTx (headersOf m2))).filter keepTx = [] := by
        rw [List.filter_eq_nil_iff]
        intro t ht
        obtain ⟨row, _, rfl⟩ := List.mem_map.mp ht
        unfold keepTx valueNonneg
        rw [buildTx_value_none _ _ hv]
        simp
      rw [hempty]

/-- C10 witness: a workbook whose first sheet maps symbol, transaction
type and date but no value column extracts nothing. -/
theorem c10_missing_value_empty_witness :
    parseWorkbook
        [("S",
          [[Cell.str "SYMBOL", Cell.str "ACQUISITION/DISPOSAL TRANSACTION TYPE",
            Cell.str "DATE OF ALLOTMENT/ACQUISITION FROM"],
           [Cell.str "TCS", Cell.str "Buy", Cell.str "2020-01-01"]])] =
      .ok ([],
        [("S",
          [[Cell.str "SYMBOL", Cell.str "ACQUISITION/DISPOSAL TRANSACTION TYPE",
            Cell.str "DATE OF ALLOTMENT/ACQUISITION FROM"],
           [Cell.str "TCS", Cell.str "Buy", Cell.str "2020-01-01"]])]) :=
  c10_missing_value_empty _ "S" _ rfl (by decide) (by decide)

def getDQ (l : List (String × ℚ)) (s : String) : ℚ := (mapGet l s).getD 0

lemma mapGet_mapSet (acc : List (String × ℚ)) (s s2 : String) (v : ℚ) :
    mapGet (mapSet acc s v) s2 = if s2 = s then some v else mapGet acc s2 := by
  induction acc with
  | nil =>
    by_cases h : s2 = s
    · simp [mapSet, mapGet, List.find?, h]
    · have h2 : ¬(s = s2) := fun hh => h hh.symm
      simp [mapSet, mapGet, List.find?, h, h2]
  | cons p r ih =>
    by_cases hp : p.1 = s
    · simp only [mapSet, if_pos hp]
      by_cases h2 : s2 = s
      · have : p.1 = s2 := by rw [hp, h2]
        simp [mapGet, List.find?, this, h2]
      · have hps : ¬(p.1 = s2) := by rw [hp]; exact fun hh => h2 hh.symm
        have hss : ¬(s = s2) := fun hh => h2 hh.symm
        simp [mapGet, List.find?, hps, h2, hp, hss]
    · simp only [mapSet, if_neg hp]
      by_cases h2 : p.1 = s2
      · have hx : ¬(s2 = s) := by rw [← h2]; exact fun hh => hp hh
        simp [mapGet, List.find?, h2, hx]
      · simp only [mapGet, List.find?] at ih ⊢
        simp only [h2]
        simpa [h2] using ih

lemma sumValues_cons (t : String × ℚ) (ts : List (String × ℚ)) (s : String) :
    sumValues (t :: ts) s = (if t.1 = s then t.2 else 0) + sumValues ts s := by
  unfold sumValues
  by_cases h : t.1 = s <;> simp [List.filter_cons, h]

lemma getDQ_step (acc : List (String × ℚ)) (t : String × ℚ) (s : String) :
    getDQ (summaryStep acc t) s = getDQ acc s + (if t.1 = s then t.2 else 0) := by
  unfold summaryStep getDQ
  rw [mapGet_mapSet]
  by_cases h : s = t.1
  · subst h
    simp
  · have h2 : ¬(t.1 = s) := fun hh => h hh.symm
    simp [h, h2]

lemma getDQ_foldl (ts : List (String × ℚ)) :
    ∀ (acc : List (String × ℚ)) (s : String),
      getDQ (ts.foldl summaryStep acc) s = getDQ acc s + sumValues ts s := by
  induction ts with
  | nil => intro acc s; simp [sumValues]
  | cons t r ih =>
    intro acc s
    rw [List.foldl_cons, ih, getDQ_step, sumValues_cons]
    ring

lemma mem_keys_mapSet (acc : List (String × ℚ)) (s k : String) (v : ℚ) :
    k ∈ (mapSet acc s v).map Prod.fst ↔ k ∈ acc.map Prod.fst ∨ k = s := by
  induction acc with
  | nil => simp [mapSet]
  | cons p r ih =>
    by_cases hp : p.1 = s
    · simp only [mapSet, if_pos hp, List.map_cons, List.mem_cons]
      rw [hp]
      tauto
    · simp only [mapSet, if_neg hp, List.map_cons, List.mem_cons, ih]
      tauto

lemma nodup_keys_mapSet (acc : List (String × ℚ)) (s : String) (v : ℚ)
    (h : (acc.map Prod.fst).Nodup) : ((mapSet acc s v).map Prod.fst).Nodup := by
  induction acc with
  | nil => simp [mapSet]
  | cons p r ih =>
    simp only [List.map_cons, List.nodup_cons] at h
    by_cases hp : p.1 = s
    · simp only [mapSet, if_pos hp, List.map_cons, List.nodup_cons]
      exact ⟨h.1, h.2⟩
    · simp only [mapSet, if_neg hp, List.map_cons, List.nodup_cons]
      refine ⟨?_, ih h.2⟩
      intro hmem
      rw [mem_keys_mapSet] at hmem
      rcases hmem with hm | hm
      · exact h.1 hm
      · exact hp hm

lemma mem_keys_foldl (ts : List (String × ℚ)) :
    ∀ (acc : List (String × ℚ)) (k : String),
      k ∈ (ts.foldl summaryStep acc).map Prod.fst ↔
        k ∈ acc.map Prod.fst ∨ k ∈ ts.map Prod.fst := by
  induction ts with
  | nil => intro acc k; simp
  | cons t r ih =>
    intro acc k
    rw [List.foldl_cons, ih]
    unfold summaryStep
    rw [mem_keys_mapSet]
    simp only [List.map_cons, List.mem_cons]
    tauto

lemma nodup_keys_foldl (ts : List (String × ℚ)) :
    ∀ acc : List (String × ℚ), (acc.map Prod.fst).Nodup →
      ((ts.foldl summaryStep acc).map Prod.fst).Nodup := by
  induction ts with
  | nil => intro acc h; exact h
  | cons t r ih =>
    intro acc h
    rw [List.foldl_cons]
    exact ih _ (nodup_keys_mapSet _ _ _ h)

lemma mapGet_of_mem (l : List (String × ℚ)) (p : String × ℚ)
    (hn : (l.map Prod.fst).Nodup) (hp : p ∈ l) : mapGet l p.1 = some p.2 := by
  induction l with
  | nil => cases hp
  | cons q r ih =>
    simp only [List.map_cons, List.nodup_cons] at hn
    rcases List.mem_cons.mp hp with rfl | hm
    · simp [mapGet, List.find?]
    · have hne : ¬(q.1 = p.1) := by
        intro hh
        exact hn.1 (hh ▸ List.mem_map_of_mem Prod.fst hm)
      have := ih hn.2 hm
      simp only [mapGet, List.find?, hne, decide_False] at this ⊢
      simpa [hne] using this

lemma insertDesc_perm (x : String × ℚ) (l : List (String × ℚ)) :
    List.Perm (insertDesc x l) (x :: l) := by
  induction l with
  | nil => exact List.Perm.refl _
  | cons y r ih =>
    unfold insertDesc
    by_cases h : x.2 ≤ y.2
    · rw [if_pos h]
      exact (ih.cons y).trans (List.Perm.swap x y r)
    · rw [if_neg h]

lemma sortDesc_perm (l : List (String × ℚ)) : List.Perm (sortDesc l) l := by
  have key : ∀ (l acc : List (String × ℚ)),
      List.Perm (l.foldl (fun acc x => insertDesc x acc) acc) (acc ++ l) := by
    intro l
    induction l with
    | nil => intro acc; simp
    | cons x r ih =>
      intro acc
      rw [List.foldl_cons]
      refine (ih _).trans ?_
      refine (List.Perm.append_right r (insertDesc_perm x acc)).trans ?_
      exact List.perm_middle.symm
  unfold sortDesc
  simpa using key l []

lemma insertDesc_sorted (x : String × ℚ) (l : List (String × ℚ))
    (h : l.Pairwise (fun a b => b.2 ≤ a.2)) :
    (insertDesc x l).Pairwise (fun a b => b.2 ≤ a.2) := by
  induction l with
  | nil => simp [insertDesc]
  | cons y r ih =>
    rw [List.pairwise_cons] at h
    unfold insertDesc
    by_cases hx : x.2 ≤ y.2
    · rw [if_pos hx, List.pairwise_cons]
      refine ⟨?_, ih h.2⟩
      intro z hz
      rcases List.mem_cons.mp ((insertDesc_perm x r).mem_iff.mp hz) with rfl | hm
      · exact hx
      · exact h.1 z hm
    · rw [if_neg hx, List.pairwise_cons]
      push_neg at hx
      refine ⟨?_, List.pairwise_cons.mpr h⟩
      intro z hz
      rcases List.mem_cons.mp hz with rfl | hm
      · exact le_of_lt hx
      · exact le_trans (h.1 z hm) (le_of_lt hx)

lemma sortDesc_sorted (l : List (String × ℚ)) :
    (sortDesc l).Pairwise (fun a b => b.2 ≤ a.2) := by
  have key : ∀ (l acc : List (String × ℚ)),
      acc.Pairwise (fun a b => b.2 ≤ a.2) →
      (l.foldl (fun acc x => insertDesc x acc) acc).Pairwise (fun a b => b.2 ≤ a.2) := by
    intro l
    induction l with
    | nil => intro acc h; exact h
    | cons x r ih =>
      intro acc h
      rw [List.foldl_cons]
      exact ih _ (insertDesc_sorted x acc h)
  unfold sortDesc
  exact key l [] (by simp)

/-- C8: every summary entry's total is the sum of the values of the
records bearing its symbol; the summary is sorted by total value
descending; its symbols are exactly the symbols occurring in the input,
each once; and symbols A, A, B with values 100, 50, 200 give the summary
B with 200 then A with 150. -/
theorem c8_summary_grouped_sorted :
    (∀ (ts : List (String × ℚ)) (p : String × ℚ),
        p ∈ computeSummary ts → p.2 = sumValues ts p.1) ∧
      (∀ ts : List (String × ℚ),
        (computeSummary ts).Pairwise (fun a b => b.2 ≤ a.2)) ∧
      (∀ (ts : List (String × ℚ)) (s : String),
        s ∈ (computeSummary ts).map Prod.fst ↔ s ∈ ts.map Prod.fst) ∧
      (∀ ts : List (String × ℚ), ((computeSummary ts).map Prod.fst).Nodup) ∧
      computeSummary [("A", 100), ("A", 50), ("B", 200)] = [("B", 200), ("A", 150)] := by
  have hperm : ∀ ts : List (String × ℚ),
      List.Perm (computeSummary ts) (summaryMap ts) := fun ts => sortDesc_perm _
  refine ⟨?_, fun ts => sortDesc_sorted _, ?_, ?_, by decide⟩
  · intro ts p hp
    have hp2 : p ∈ summaryMap ts := (hperm ts).mem_iff.mp hp
    have hn : ((summaryMap ts).map Prod.fst).Nodup := nodup_keys_foldl ts [] (by simp)
    have hget := mapGet_of_mem _ p hn hp2
    have hsum := getDQ_foldl ts [] p.1
    unfold summaryMap at hget
    unfold getDQ at hsum
    rw [hget] at hsum
    simpa [mapGet, List.find?] using hsum
  · intro ts s
    rw [((hperm ts).map Prod.fst).mem_iff]
    simpa using mem_keys_foldl ts [] s
  · intro ts
    exact ((hperm ts).map Prod.fst).nodup_iff.mpr (nodup_keys_foldl ts [] (by simp))

/-- C8 witness: the A entry of the concrete summary indeed carries the
sum of the A values. -/
theorem c8_summary_grouped_sorted_witness :
    (("A", (150 : ℚ)) : String × ℚ).2 =
      sumValues [("A", 100), ("A", 50), ("B", 200)] "A" :=
  c8_summary_grouped_sorted.1 [("A", 100), ("A", 50), ("B", 200)] ("A", 150) (by decide)

/-- C4 amended witness at a concrete numeric string. -/
theorem c4_numeric_amended_witness : isNumeric (Cell.str "7e2") = true :=
  (c4_numeric_amended.1 (Cell.str "7e2")).mpr (Or.inl (by decide))
